import Mathlib

/-!
Verification of the real-time fan-out core of the go-task-tracker
repository: the per-IP fixed-window rate limiter, the WebSocket hub
(register / unregister / broadcast over a board-indexed registry of
connections), the upgrade-and-authorize handshake, and the broadcast
wire encoding.  All definitions are shallow embeddings of the Go code
in tasks-service/handlers/handlers.go (the auth-service rate limiter
is textually identical to the tasks-service one).

Go maps are embedded as association lists with a hand-rolled first-hit
lookup, connections and board ids as naturals, and the fallibility of a
WebSocket write as an explicit `fails` predicate passed to the broadcast
function.  The mutex discipline of `BroadcastTaskUpdate` is embedded
separately as an event trace (`broadcastTrace`).
-/

/-- First-hit lookup in an association list keyed by strings; embeds
reading `rl.attempts[ip]` from the Go map. -/
def lookupCount : List (String × Nat) → String → Option Nat
  | [], _ => none
  | (k, v) :: rest, ip => if k = ip then some v else lookupCount rest ip

/-- Overwrite the first entry for `ip` (or append one); embeds the Go
map store `rl.attempts[ip] = n`. -/
def setCount : List (String × Nat) → String → Nat → List (String × Nat)
  | [], ip, n => [(ip, n)]
  | (k, v) :: rest, ip, n =>
      if k = ip then (ip, n) :: rest else (k, v) :: setCount rest ip n

/-- State of the Go `RateLimiter` struct: the `attempts` counter map and
the configured `limit`.  The `window` duration and the mutex are not
part of the sequential state. -/
structure RateLimiter where
  attempts : List (String × Nat)
  limit : Nat

/-- Embeds `func (rl *RateLimiter) Allow(ip string) bool`: a key absent
from the map is stored with count 1 and allowed; a key whose count has
reached the limit is denied without mutation; otherwise the count is
incremented and the call allowed.  Returns the Go boolean together with
the post-state. -/
def RateLimiter.Allow (rl : RateLimiter) (ip : String) : Bool × RateLimiter :=
  match lookupCount rl.attempts ip with
  | none => (true, ⟨(ip, 1) :: rl.attempts, rl.limit⟩)
  | some count =>
      if rl.limit ≤ count then (false, rl)
      else (true, ⟨setCount rl.attempts ip (count + 1), rl.limit⟩)

/-- One tick of `func (rl *RateLimiter) cleanup()`: the whole counter
map is replaced by a fresh empty map. -/
def RateLimiter.cleanup (rl : RateLimiter) : RateLimiter := ⟨[], rl.limit⟩

/-- Number of `Allow` calls that return `true` for key `k` when the
calls in `calls` are issued in order starting from state `rl`. -/
def successCount (rl : RateLimiter) (k : String) : List String → Nat
  | [] => 0
  | ip :: rest =>
      (if ip = k ∧ (rl.Allow ip).1 = true then 1 else 0) +
        successCount (rl.Allow ip).2 k rest

/-- Run a sequence of `Allow` calls, keeping only the final state. -/
def runAllow (rl : RateLimiter) : List String → RateLimiter
  | [] => rl
  | ip :: rest => runAllow (rl.Allow ip).2 rest

/-- Remaining successes available to key `k` in state `rl`: a full quota
of `max 1 limit` for an unseen key, `limit - c` once a count is stored. -/
def allowBound (rl : RateLimiter) (k : String) : Nat :=
  match lookupCount rl.attempts k with
  | none => max 1 rl.limit
  | some c => rl.limit - c

theorem Allow_limit_eq (rl : RateLimiter) (ip : String) :
    (rl.Allow ip).2.limit = rl.limit := by
  unfold RateLimiter.Allow
  cases lookupCount rl.attempts ip with
  | none => rfl
  | some c =>
      dsimp only
      split
      · rfl
      · rfl

theorem lookupCount_setCount_self (l : List (String × Nat)) (ip : String) (n : Nat) :
    lookupCount (setCount l ip n) ip = some n := by
  induction l with
  | nil => simp [setCount, lookupCount]
  | cons e rest ih =>
      obtain ⟨k, v⟩ := e
      by_cases hk : k = ip
      · simp [setCount, hk, lookupCount]
      · simp [setCount, hk, lookupCount, ih]

theorem lookupCount_setCount_other (l : List (String × Nat)) (ip k : String) (n : Nat)
    (h : k ≠ ip) : lookupCount (setCount l ip n) k = lookupCount l k := by
  induction l with
  | nil => simp [setCount, lookupCount, Ne.symm h]
  | cons e rest ih =>
      obtain ⟨j, v⟩ := e
      by_cases hj : j = ip
      · subst hj
        simp [setCount, lookupCount, Ne.symm h]
      · simp [setCount, hj, lookupCount, ih]

theorem Allow_lookup_other (rl : RateLimiter) (ip k : String) (h : k ≠ ip) :
    lookupCount (rl.Allow ip).2.attempts k = lookupCount rl.attempts k := by
  unfold RateLimiter.Allow
  cases lookupCount rl.attempts ip with
  | none =>
      dsimp only
      simp [lookupCount, Ne.symm h]
  | some c =>
      dsimp only
      split
      · rfl
      · exact lookupCount_setCount_other _ _ _ _ h

theorem successCount_le_allowBound (calls : List String) :
    ∀ (rl : RateLimiter) (k : String), successCount rl k calls ≤ allowBound rl k := by
  induction calls with
  | nil => intro rl k; simp [successCount]
  | cons ip rest ih =>
      intro rl k
      rw [successCount]
      by_cases hip : ip = k
      · subst hip
        cases hl : lookupCount rl.attempts ip with
        | none =>
            have hA : rl.Allow ip = (true, ⟨(ip, 1) :: rl.attempts, rl.limit⟩) := by
              unfold RateLimiter.Allow; rw [hl]
            have hfst : (rl.Allow ip).1 = true := by rw [hA]
            have hb : allowBound (rl.Allow ip).2 ip = rl.limit - 1 := by
              rw [hA]; simp [allowBound, lookupCount]
            have hrec := ih (rl.Allow ip).2 ip
            rw [hb] at hrec
            have hbound : allowBound rl ip = max 1 rl.limit := by
              simp [allowBound, hl]
            rw [hbound, if_pos (And.intro rfl hfst)]
            omega
        | some c =>
            by_cases hc : rl.limit ≤ c
            · have hA : rl.Allow ip = (false, rl) := by
                unfold RateLimiter.Allow; rw [hl]; simp [hc]
              have hfst : (rl.Allow ip).1 = false := by rw [hA]
              have hcond : ¬ (ip = ip ∧ (rl.Allow ip).1 = true) := by
                intro hcon
                rw [hfst] at hcon
                simp at hcon
              have hsnd : (rl.Allow ip).2 = rl := by rw [hA]
              rw [if_neg hcond, Nat.zero_add, hsnd]
              exact ih rl ip
            · have hA : rl.Allow ip =
                  (true, ⟨setCount rl.attempts ip (c + 1), rl.limit⟩) := by
                unfold RateLimiter.Allow; rw [hl]; simp [hc]
              have hfst : (rl.Allow ip).1 = true := by rw [hA]
              have hb : allowBound (rl.Allow ip).2 ip = rl.limit - (c + 1) := by
                rw [hA]; simp [allowBound, lookupCount_setCount_self]
              have hrec := ih (rl.Allow ip).2 ip
              rw [hb] at hrec
              have hbound : allowBound rl ip = rl.limit - c := by
                simp [allowBound, hl]
              rw [hbound, if_pos (And.intro rfl hfst)]
              omega
      · have hlk : lookupCount (rl.Allow ip).2.attempts k = lookupCount rl.attempts k :=
          Allow_lookup_other rl ip k (fun h' => hip h'.symm)
        have hb : allowBound (rl.Allow ip).2 k = allowBound rl k := by
          unfold allowBound
          rw [hlk, Allow_limit_eq]
        have hrec := ih (rl.Allow ip).2 k
        rw [hb] at hrec
        have hcond : ¬ (ip = k ∧ (rl.Allow ip).1 = true) := fun hcon => hip hcon.1
        rw [if_neg hcond, Nat.zero_add]
        exact hrec

/-- C1 (amended): starting from a reset counter map, for every key and
every sequence of `Allow` calls, at most `max 1 limit` calls return
`true` for that key before the next reset — at most `limit` when
`limit ≥ 1`, but exactly one success is still granted to a fresh key
when `limit = 0`, because the absent-key branch allows unconditionally. -/
theorem allow_success_bound (limit : Nat) (k : String) (calls : List String) :
    successCount ⟨[], limit⟩ k calls ≤ max 1 limit := by
  have h := successCount_le_allowBound calls ⟨[], limit⟩ k
  simpa [allowBound, lookupCount] using h

/-- C1 counterexample: with `limit = 0`, the very first `Allow` call for
a fresh key after a reset returns `true`, so a key obtains one success
between two resets even though the claim says every call is denied. -/
theorem allow_limit_zero_first_call_allowed :
    successCount ⟨[], 0⟩ "k" ["k"] = 1 ∧
      ((RateLimiter.mk [] 0).Allow "k").1 = true := by
  constructor
  · decide
  · decide

/-- Every count stored in the map is at most `max 1 limit`; preserved by
each `Allow` call. -/
def CountsBounded (rl : RateLimiter) : Prop :=
  ∀ k c, lookupCount rl.attempts k = some c → c ≤ max 1 rl.limit

theorem CountsBounded_Allow (rl : RateLimiter) (ip : String)
    (h : CountsBounded rl) : CountsBounded (rl.Allow ip).2 := by
  intro k c hk
  by_cases hki : k = ip
  · subst hki
    cases hl : lookupCount rl.attempts k with
    | none =>
        have hA : rl.Allow k = (true, ⟨(k, 1) :: rl.attempts, rl.limit⟩) := by
          unfold RateLimiter.Allow; rw [hl]
        rw [hA] at hk
        simp [lookupCount] at hk
        rw [Allow_limit_eq]
        omega
    | some c0 =>
        by_cases hc : rl.limit ≤ c0
        · have hA : rl.Allow k = (false, rl) := by
            unfold RateLimiter.Allow; rw [hl]; simp [hc]
          rw [hA] at hk
          rw [Allow_limit_eq]
          exact h k c hk
        · have hA : rl.Allow k =
              (true, ⟨setCount rl.attempts k (c0 + 1), rl.limit⟩) := by
            unfold RateLimiter.Allow; rw [hl]; simp [hc]
          rw [hA] at hk
          simp [lookupCount_setCount_self] at hk
          rw [Allow_limit_eq]
          omega
  · rw [Allow_lookup_other rl ip k hki] at hk
    rw [Allow_limit_eq]
    exact h k c hk

theorem runAllow_limit_eq (calls : List String) :
    ∀ rl : RateLimiter, (runAllow rl calls).limit = rl.limit := by
  induction calls with
  | nil => intro rl; rfl
  | cons ip rest ih =>
      intro rl
      rw [runAllow, ih, Allow_limit_eq]

theorem CountsBounded_runAllow (calls : List String) :
    ∀ rl : RateLimiter, CountsBounded rl → CountsBounded (runAllow rl calls) := by
  induction calls with
  | nil => intro rl h; exact h
  | cons ip rest ih =>
      intro rl h
      rw [runAllow]
      exact ih _ (CountsBounded_Allow rl ip h)

/-- C6 (amended): per-call behavior of `Allow` for a key: an unseen key
is allowed and stored with count 1 (even when `limit = 0`, so the stored
count can reach `max 1 limit`, not always `limit`); a key with stored
count `c < limit` is allowed and its count becomes `c + 1`; once
`c ≥ limit` the call is denied and the state is unchanged; consequently
every stored count reachable from a reset state is at most `max 1 limit`. -/
theorem allow_step_spec (rl : RateLimiter) (ip : String) :
    (lookupCount rl.attempts ip = none →
        (rl.Allow ip).1 = true ∧
          lookupCount (rl.Allow ip).2.attempts ip = some 1) ∧
    (∀ c, lookupCount rl.attempts ip = some c → c < rl.limit →
        (rl.Allow ip).1 = true ∧
          lookupCount (rl.Allow ip).2.attempts ip = some (c + 1)) ∧
    (∀ c, lookupCount rl.attempts ip = some c → rl.limit ≤ c →
        (rl.Allow ip).1 = false ∧ (rl.Allow ip).2 = rl) ∧
    (∀ calls k c,
        lookupCount (runAllow ⟨[], rl.limit⟩ calls).attempts k = some c →
          c ≤ max 1 rl.limit) := by
  refine ⟨?_, ?_, ?_, ?_⟩
  · intro hl
    have hA : rl.Allow ip = (true, ⟨(ip, 1) :: rl.attempts, rl.limit⟩) := by
      unfold RateLimiter.Allow; rw [hl]
    rw [hA]
    simp [lookupCount]
  · intro c hl hc
    have hA : rl.Allow ip = (true, ⟨setCount rl.attempts ip (c + 1), rl.limit⟩) := by
      unfold RateLimiter.Allow; rw [hl]; simp [Nat.not_le_of_lt hc]
    rw [hA]
    simp [lookupCount_setCount_self]
  · intro c hl hc
    have hA : rl.Allow ip = (false, rl) := by
      unfold RateLimiter.Allow; rw [hl]; simp [hc]
    rw [hA]
    exact ⟨rfl, rfl⟩
  · intro calls k c hk
    have hbase : CountsBounded ⟨[], rl.limit⟩ := by
      intro k' c' h'
      simp [lookupCount] at h'
    have h2 := CountsBounded_runAllow calls ⟨[], rl.limit⟩ hbase k c hk
    rw [runAllow_limit_eq] at h2
    exact h2

/-- Witness for `allow_step_spec`: with limit 3 and stored count 1 for
key "a", the next call is allowed and stores count 2. -/
theorem allow_step_spec_witness :
    ((RateLimiter.mk [("a", 1)] 3).Allow "a").1 = true ∧
      lookupCount ((RateLimiter.mk [("a", 1)] 3).Allow "a").2.attempts "a" = some 2 :=
  (allow_step_spec ⟨[("a", 1)], 3⟩ "a").2.1 1 (by decide) (by decide)

/-- C6 counterexample: with `limit = 0` the first call for key "a"
returns `true` while storing count 1, which exceeds the limit — so the
stored count does exceed the limit on a call where `Allow` returns true. -/
theorem allow_count_exceeds_limit :
    ((RateLimiter.mk [] 0).Allow "a").1 = true ∧
      lookupCount ((RateLimiter.mk [] 0).Allow "a").2.attempts "a" = some 1 ∧
      (RateLimiter.mk [] 0).limit < 1 := by
  refine ⟨by decide, by decide, by decide⟩

/-- Snapshot of the fields of a task that the broadcast reads; strings
stand for the UUID, title and status values. -/
structure TaskData where
  id : String
  title : String
  status : String

/-- The outbound wire message built by `BroadcastTaskUpdate` via
`json.Marshal`: exactly the four fields event, task_id, title, status. -/
structure WireMsg where
  event : String
  task_id : String
  title : String
  status : String
deriving DecidableEq

/-- Embeds the `json.Marshal` call of `BroadcastTaskUpdate`: a pure,
deterministic encoding of the four-field map literal (marshalling a map
of strings cannot fail, so the model is total). -/
def encodeTask (t : TaskData) : WireMsg :=
  ⟨"task_updated", t.id, t.title, t.status⟩

/-- The Hub registry `connections map[uuid.UUID]map[*websocket.Conn]bool`:
board ids and connections are naturals, each inner set is a duplicate-free
list. -/
abbrev Registry := List (Nat × List Nat)

/-- First-hit lookup of a board's subscriber set; embeds reading
`h.connections[boardID]` together with the `exists` flag. -/
def getBoard : Registry → Nat → Option (List Nat)
  | [], _ => none
  | (k, v) :: rest, b => if k = b then some v else getBoard rest b

/-- Replace the subscriber set stored for board `b` (or append an entry
when the board has none); embeds storing into the outer Go map. -/
def setBoard : Registry → Nat → List Nat → Registry
  | [], b, s => [(b, s)]
  | (k, v) :: rest, b, s =>
      if k = b then (b, s) :: rest else (k, v) :: setBoard rest b s

/-- Embeds `func (hub *WSHub) register`: create the inner set when the
board has none, then add the connection (a set add — re-adding an
existing member changes nothing). -/
def register (reg : Registry) (b c : Nat) : Registry :=
  match getBoard reg b with
  | none => setBoard reg b [c]
  | some s => setBoard reg b (if c ∈ s then s else s ++ [c])

/-- Remove every occurrence of connection `c`; embeds `delete(m, conn)`
on the inner Go map (keys are unique, so deleting the key removes all). -/
def removeConn : List Nat → Nat → List Nat
  | [], _ => []
  | x :: rest, c => if x = c then removeConn rest c else x :: removeConn rest c

/-- Embeds `func (hub *WSHub) unregister`: `delete` on the (possibly
nil) inner map — a missing board or an absent connection is a no-op. -/
def unregister (reg : Registry) (b c : Nat) : Registry :=
  match getBoard reg b with
  | none => reg
  | some s => setBoard reg b (removeConn s c)

/-- Result of one broadcast: the surviving subscriber list, the
successful writes (connection, payload) in write order, and the
connections whose write failed (removed from the set and closed). -/
structure BroadcastResult where
  survivors : List Nat
  delivered : List (Nat × WireMsg)
  closed : List Nat
deriving DecidableEq

/-- The `for conn := range conns` loop of `BroadcastTaskUpdate`: each
connection gets a write of the same `msg`; a failing write removes the
connection from the set and closes it, and iteration continues. -/
def broadcastLoop (fails : Nat → Bool) (msg : WireMsg) : List Nat → BroadcastResult
  | [] => ⟨[], [], []⟩
  | c :: rest =>
      let r := broadcastLoop fails msg rest
      if fails c then ⟨r.survivors, r.delivered, c :: r.closed⟩
      else ⟨c :: r.survivors, (c, msg) :: r.delivered, r.closed⟩

/-- Embeds `func (h *WSHub) BroadcastTaskUpdate`: no subscriber set for
the board means an immediate return with nothing written and the
registry untouched; otherwise the event is encoded once and the loop
runs, with the failing connections dropped from the board's set (the
board entry itself is kept, possibly empty).  Which writes fail is
supplied by the `fails` predicate. -/
def BroadcastTaskUpdate (fails : Nat → Bool) (reg : Registry) (b : Nat)
    (t : TaskData) : Registry × BroadcastResult :=
  match getBoard reg b with
  | none => (reg, ⟨[], [], []⟩)
  | some s =>
      let r := broadcastLoop fails (encodeTask t) s
      (setBoard reg b r.survivors, r)

theorem getBoard_setBoard_self (reg : Registry) (b : Nat) (s : List Nat) :
    getBoard (setBoard reg b s) b = some s := by
  induction reg with
  | nil => simp [setBoard, getBoard]
  | cons e rest ih =>
      obtain ⟨k, v⟩ := e
      by_cases hk : k = b
      · simp [setBoard, hk, getBoard]
      · simp [setBoard, hk, getBoard, ih]

theorem getBoard_setBoard_other (reg : Registry) (b k : Nat) (s : List Nat)
    (h : k ≠ b) : getBoard (setBoard reg b s) k = getBoard reg k := by
  induction reg with
  | nil => simp [setBoard, getBoard, Ne.symm h]
  | cons e rest ih =>
      obtain ⟨j, v⟩ := e
      by_cases hj : j = b
      · subst hj
        simp [setBoard, getBoard, Ne.symm h]
      · simp [setBoard, hj, getBoard, ih]

theorem setBoard_getBoard_eq (reg : Registry) (b : Nat) (s : List Nat)
    (h : getBoard reg b = some s) : setBoard reg b s = reg := by
  induction reg with
  | nil => simp [getBoard] at h
  | cons e rest ih =>
      obtain ⟨k, v⟩ := e
      by_cases hk : k = b
      · subst hk
        simp [getBoard] at h
        simp [setBoard, h]
      · simp [getBoard, hk] at h
        simp [setBoard, hk, ih h]

theorem setBoard_setBoard (reg : Registry) (b : Nat) (s s' : List Nat) :
    setBoard (setBoard reg b s) b s' = setBoard reg b s' := by
  induction reg with
  | nil => simp [setBoard]
  | cons e rest ih =>
      obtain ⟨k, v⟩ := e
      by_cases hk : k = b
      · simp [setBoard, hk]
      · simp [setBoard, hk, ih]

theorem removeConn_idem (s : List Nat) (c : Nat) :
    removeConn (removeConn s c) c = removeConn s c := by
  induction s with
  | nil => rfl
  | cons x rest ih =>
      by_cases hx : x = c
      · simp [removeConn, hx, ih]
      · simp [removeConn, hx, ih]

theorem removeConn_of_not_mem (s : List Nat) (c : Nat) (h : c ∉ s) :
    removeConn s c = s := by
  induction s with
  | nil => rfl
  | cons x rest ih =>
      have hx : x ≠ c := fun he => h (he ▸ List.mem_cons_self x rest)
      have hrest : c ∉ rest := fun hm => h (List.mem_cons_of_mem x hm)
      simp [removeConn, hx, ih hrest]

/-- C7: `unregister` is idempotent and defensive: unregistering twice
for the same pair equals unregistering once; when the board has no
subscriber set the registry is returned unchanged; and when the set
exists but the connection is not in it the registry is also unchanged
(the Go `delete` on a nil or non-containing map is a no-op, so nothing
errors or panics — totality of the embedding reflects panic-freedom). -/
theorem unregister_idempotent (reg : Registry) (b c : Nat) :
    unregister (unregister reg b c) b c = unregister reg b c ∧
    (getBoard reg b = none → unregister reg b c = reg) ∧
    (∀ s, getBoard reg b = some s → c ∉ s → unregister reg b c = reg) := by
  refine ⟨?_, ?_, ?_⟩
  · cases hl : getBoard reg b with
    | none => simp [unregister, hl]
    | some s =>
        have h1 : unregister reg b c = setBoard reg b (removeConn s c) := by
          simp [unregister, hl]
        rw [h1]
        have h2 : getBoard (setBoard reg b (removeConn s c)) b
            = some (removeConn s c) := getBoard_setBoard_self reg b _
        simp [unregister, h2, removeConn_idem, setBoard_setBoard]
  · intro hl
    simp [unregister, hl]
  · intro s hl hc
    simp [unregister, hl, removeConn_of_not_mem s c hc,
      setBoard_getBoard_eq reg b s hl]

/-- Witness for `unregister_idempotent`: board 1 has subscribers
`[10, 11]`; unregistering connection 12 (absent) leaves the registry
unchanged, and a double unregister of 10 equals a single one. -/
theorem unregister_idempotent_witness :
    unregister (unregister [(1, [10, 11])] 1 10) 1 10
        = unregister [(1, [10, 11])] 1 10 ∧
    unregister [(1, [10, 11])] 1 12 = [(1, [10, 11])] := by
  constructor
  · exact (unregister_idempotent [(1, [10, 11])] 1 10).1
  · exact (unregister_idempotent [(1, [10, 11])] 1 12).2.2 [10, 11] (by decide)
      (by decide)

theorem broadcast_none_unfold (fails : Nat → Bool) (reg : Registry)
    (b : Nat) (t : TaskData) (h : getBoard reg b = none) :
    BroadcastTaskUpdate fails reg b t = (reg, ⟨[], [], []⟩) := by
  simp [BroadcastTaskUpdate, h]

/-- C8: a broadcast for a board with no subscriber set in the registry
is a pure no-op: the registry is returned unchanged and nothing is
written, closed or removed (totality of the embedding reflects that the
early return neither errors nor panics). -/
theorem broadcast_no_subscribers (fails : Nat → Bool) (reg : Registry)
    (b : Nat) (t : TaskData) (h : getBoard reg b = none) :
    BroadcastTaskUpdate fails reg b t = (reg, ⟨[], [], []⟩) :=
  broadcast_none_unfold fails reg b t h

/-- Witness for `broadcast_no_subscribers`: board 2 is absent from a
registry that only knows board 1. -/
theorem broadcast_no_subscribers_witness :
    getBoard [(1, [10])] 2 = none ∧
      BroadcastTaskUpdate (fun _ => false) [(1, [10])] 2 ⟨"t", "x", "s"⟩
        = ([(1, [10])], ⟨[], [], []⟩) :=
  ⟨by decide, broadcast_no_subscribers (fun _ => false) [(1, [10])] 2
    ⟨"t", "x", "s"⟩ (by decide)⟩

theorem broadcastLoop_survivors (fails : Nat → Bool) (msg : WireMsg)
    (s : List Nat) :
    (broadcastLoop fails msg s).survivors = s.filter (fun c => !fails c) := by
  induction s with
  | nil => rfl
  | cons c rest ih =>
      by_cases hc : fails c = true
      · simp [broadcastLoop, hc, ih]
      · simp at hc
        simp [broadcastLoop, hc, ih]

theorem broadcastLoop_delivered (fails : Nat → Bool) (msg : WireMsg)
    (s : List Nat) :
    (broadcastLoop fails msg s).delivered
      = (s.filter (fun c => !fails c)).map (fun c => (c, msg)) := by
  induction s with
  | nil => rfl
  | cons c rest ih =>
      by_cases hc : fails c = true
      · simp [broadcastLoop, hc, ih]
      · simp at hc
        simp [broadcastLoop, hc, ih]

theorem broadcastLoop_closed (fails : Nat → Bool) (msg : WireMsg)
    (s : List Nat) :
    (broadcastLoop fails msg s).closed = s.filter fails := by
  induction s with
  | nil => rfl
  | cons c rest ih =>
      by_cases hc : fails c = true
      · simp [broadcastLoop, hc, ih]
      · simp at hc
        simp [broadcastLoop, hc, ih]

theorem broadcast_some_unfold (fails : Nat → Bool) (reg : Registry) (b : Nat)
    (t : TaskData) (s : List Nat) (h : getBoard reg b = some s) :
    BroadcastTaskUpdate fails reg b t
      = (setBoard reg b (s.filter (fun c => !fails c)),
          ⟨s.filter (fun c => !fails c),
            (s.filter (fun c => !fails c)).map (fun c => (c, encodeTask t)),
            s.filter fails⟩) := by
  unfold BroadcastTaskUpdate
  rw [h]
  dsimp only
  have heta : broadcastLoop fails (encodeTask t) s
      = ⟨(broadcastLoop fails (encodeTask t) s).survivors,
          (broadcastLoop fails (encodeTask t) s).delivered,
          (broadcastLoop fails (encodeTask t) s).closed⟩ := rfl
  rw [heta, broadcastLoop_survivors, broadcastLoop_delivered, broadcastLoop_closed]

/-- C4: when board `b` has subscriber list `s` and the writes that fail
are those selected by `fails`, the broadcast delivers the encoded
message to exactly the non-failing connections, closes and removes
exactly the failing ones, leaves exactly the non-failing ones as the
board's subscriber set, and a later broadcast for the same board reaches
exactly the surviving (and then non-failing) connections. -/
theorem broadcast_partial_failure (fails : Nat → Bool) (reg : Registry)
    (b : Nat) (t : TaskData) (s : List Nat) (h : getBoard reg b = some s) :
    (BroadcastTaskUpdate fails reg b t).2.delivered
        = (s.filter (fun c => !fails c)).map (fun c => (c, encodeTask t)) ∧
    (BroadcastTaskUpdate fails reg b t).2.closed = s.filter fails ∧
    getBoard (BroadcastTaskUpdate fails reg b t).1 b
        = some (s.filter (fun c => !fails c)) ∧
    (∀ (g : Nat → Bool) (t' : TaskData),
        (BroadcastTaskUpdate g (BroadcastTaskUpdate fails reg b t).1 b t').2.delivered
          = ((s.filter (fun c => !fails c)).filter (fun c => !g c)).map
              (fun c => (c, encodeTask t'))) := by
  rw [broadcast_some_unfold fails reg b t s h]
  refine ⟨rfl, rfl, getBoard_setBoard_self reg b _, ?_⟩
  intro g t'
  have h2 : getBoard (setBoard reg b (s.filter (fun c => !fails c))) b
      = some (s.filter (fun c => !fails c)) := getBoard_setBoard_self reg b _
  rw [broadcast_some_unfold g _ b t' _ h2]

/-- Witness for `broadcast_partial_failure`: board 1 has subscribers 10,
11, 12 and the write to 11 fails: 10 and 12 receive the message, 11 is
closed and removed, and a later all-successful broadcast reaches exactly
10 and 12. -/
theorem broadcast_partial_failure_witness :
    getBoard [(1, [10, 11, 12])] 1 = some [10, 11, 12] ∧
    ((BroadcastTaskUpdate (fun c => c == 11) [(1, [10, 11, 12])] 1
          ⟨"t1", "X", "done"⟩).2.delivered
        = ([10, 11, 12].filter (fun c => !(c == 11))).map
            (fun c => (c, encodeTask ⟨"t1", "X", "done"⟩)) ∧
      (BroadcastTaskUpdate (fun c => c == 11) [(1, [10, 11, 12])] 1
          ⟨"t1", "X", "done"⟩).2.closed = [10, 11, 12].filter (fun c => c == 11) ∧
      getBoard (BroadcastTaskUpdate (fun c => c == 11) [(1, [10, 11, 12])] 1
          ⟨"t1", "X", "done"⟩).1 1
        = some ([10, 11, 12].filter (fun c => !(c == 11))) ∧
      (∀ (g : Nat → Bool) (t' : TaskData),
        (BroadcastTaskUpdate g (BroadcastTaskUpdate (fun c => c == 11)
            [(1, [10, 11, 12])] 1 ⟨"t1", "X", "done"⟩).1 1 t').2.delivered
          = (([10, 11, 12].filter (fun c => !(c == 11))).filter (fun c => !g c)).map
              (fun c => (c, encodeTask t')))) :=
  ⟨by decide,
    broadcast_partial_failure (fun c => c == 11) [(1, [10, 11, 12])] 1
      ⟨"t1", "X", "done"⟩ [10, 11, 12] (by decide)⟩

/-- C9: a broadcast encodes the changed task once into the
deterministic wire message with exactly the fields event="task_updated",
task_id, title and status; every successful write carries that same
message, and when no write fails every subscriber of the board receives
it. -/
theorem broadcast_encoding (fails : Nat → Bool) (reg : Registry) (b : Nat)
    (t : TaskData) (s : List Nat) (h : getBoard reg b = some s) :
    encodeTask t = ⟨"task_updated", t.id, t.title, t.status⟩ ∧
    (∀ p ∈ (BroadcastTaskUpdate fails reg b t).2.delivered, p.2 = encodeTask t) ∧
    ((∀ c ∈ s, fails c = false) →
        (BroadcastTaskUpdate fails reg b t).2.delivered
          = s.map (fun c => (c, encodeTask t))) := by
  refine ⟨rfl, ?_, ?_⟩
  · intro p hp
    rw [broadcast_some_unfold fails reg b t s h] at hp
    dsimp only at hp
    obtain ⟨c, _, hc⟩ := List.mem_map.mp hp
    rw [← hc]
  · intro hall
    rw [broadcast_some_unfold fails reg b t s h]
    dsimp only
    have hfilter : s.filter (fun c => !fails c) = s := by
      apply List.filter_eq_self.mpr
      intro c hc
      simp [hall c hc]
    rw [hfilter]

/-- Witness for `broadcast_encoding`: board 5 with subscribers 20 and
21, no failing writes: both receive the four-field message. -/
theorem broadcast_encoding_witness :
    getBoard [(5, [20, 21])] 5 = some [20, 21] ∧
      (BroadcastTaskUpdate (fun _ => false) [(5, [20, 21])] 5
          ⟨"tid", "Title", "open"⟩).2.delivered
        = [20, 21].map (fun c => (c, encodeTask ⟨"tid", "Title", "open"⟩)) :=
  ⟨by decide,
    (broadcast_encoding (fun _ => false) [(5, [20, 21])] 5
        ⟨"tid", "Title", "open"⟩ [20, 21] (by decide)).2.2
      (fun _ _ => rfl)⟩

theorem setBoard_keys_eq (reg : Registry) (b : Nat) (s w : List Nat)
    (h : getBoard reg b = some w) :
    (setBoard reg b s).map Prod.fst = reg.map Prod.fst := by
  induction reg with
  | nil => simp [getBoard] at h
  | cons e rest ih =>
      obtain ⟨k, v⟩ := e
      by_cases hk : k = b
      · subst hk
        simp [setBoard]
      · simp [getBoard, hk] at h
        simp [setBoard, hk, ih h]

/-- C10: a broadcast for board `b` mutates only the subscriber set of
`b` itself, and only by dropping the failing connections: every other
board's set is untouched, a missing board entry means the whole registry
is unchanged, the surviving set is a subset of the old one (no
connection is ever added), and the set of board entries (keys) is
preserved — no entry is created or deleted. -/
theorem broadcast_frame (fails : Nat → Bool) (reg : Registry) (b : Nat)
    (t : TaskData) :
    (∀ k, k ≠ b →
        getBoard (BroadcastTaskUpdate fails reg b t).1 k = getBoard reg k) ∧
    (getBoard reg b = none → (BroadcastTaskUpdate fails reg b t).1 = reg) ∧
    (∀ s, getBoard reg b = some s →
        getBoard (BroadcastTaskUpdate fails reg b t).1 b
            = some (s.filter (fun c => !fails c)) ∧
        (∀ c, c ∈ s.filter (fun c => !fails c) → c ∈ s)) ∧
    (BroadcastTaskUpdate fails reg b t).1.map Prod.fst = reg.map Prod.fst := by
  refine ⟨?_, ?_, ?_, ?_⟩
  · intro k hk
    cases hl : getBoard reg b with
    | none => rw [broadcast_none_unfold fails reg b t hl]
    | some s =>
        rw [broadcast_some_unfold fails reg b t s hl]
        exact getBoard_setBoard_other reg b k _ hk
  · intro hl
    rw [broadcast_none_unfold fails reg b t hl]
  · intro s hl
    rw [broadcast_some_unfold fails reg b t s hl]
    refine ⟨getBoard_setBoard_self reg b _, ?_⟩
    intro c hc
    exact List.mem_of_mem_filter hc
  · cases hl : getBoard reg b with
    | none => rw [broadcast_none_unfold fails reg b t hl]
    | some s =>
        rw [broadcast_some_unfold fails reg b t s hl]
        exact setBoard_keys_eq reg b _ s hl

/-- Witness for `broadcast_frame`: broadcasting to board 1 (where 11
fails) leaves board 2's set untouched and preserves the key list. -/
theorem broadcast_frame_witness :
    getBoard (BroadcastTaskUpdate (fun c => c == 11) [(1, [10, 11]), (2, [20])] 1
        ⟨"t", "x", "s"⟩).1 2 = getBoard [(1, [10, 11]), (2, [20])] 2 ∧
    (BroadcastTaskUpdate (fun c => c == 11) [(1, [10, 11]), (2, [20])] 1
        ⟨"t", "x", "s"⟩).1.map Prod.fst = [(1, [10, 11]), (2, [20])].map Prod.fst :=
  ⟨(broadcast_frame (fun c => c == 11) [(1, [10, 11]), (2, [20])] 1
      ⟨"t", "x", "s"⟩).1 2 (by decide),
    (broadcast_frame (fun c => c == 11) [(1, [10, 11]), (2, [20])] 1
      ⟨"t", "x", "s"⟩).2.2.2⟩

/-- Synchronization-relevant events of one `BroadcastTaskUpdate` call:
acquiring and releasing `h.mutex`, attempting a write to a connection,
and removing-plus-closing a connection after a failed write. -/
inductive LockEvent where
  | lock
  | unlock
  | write (c : Nat)
  | removeClose (c : Nat)
deriving DecidableEq

/-- Events of the fan-out loop: every connection gets a write attempt;
a failing connection is then removed from the set and closed, in place,
while iteration continues. -/
def broadcastEvents (fails : Nat → Bool) : List Nat → List LockEvent
  | [] => []
  | c :: rest =>
      (if fails c then [LockEvent.write c, LockEvent.removeClose c]
       else [LockEvent.write c]) ++ broadcastEvents fails rest

/-- Everything `BroadcastTaskUpdate` does between acquiring and
releasing the mutex: nothing when the board has no subscriber set,
otherwise the whole fan-out loop. -/
def broadcastBody (fails : Nat → Bool) (reg : Registry) (b : Nat) : List LockEvent :=
  match getBoard reg b with
  | none => []
  | some s => broadcastEvents fails s

/-- Event trace of `BroadcastTaskUpdate` as written in the source:
`h.mutex.Lock()` on entry, `defer h.mutex.Unlock()` on return, and the
subscriber lookup, encoding, writes and removals in between. -/
def broadcastTrace (fails : Nat → Bool) (reg : Registry) (b : Nat) : List LockEvent :=
  LockEvent.lock :: broadcastBody fails reg b ++ [LockEvent.unlock]

/-- Scan a trace, tracking whether the lock is held, and report whether
some write attempt happens while it is held. -/
def writeHeldCheck : Bool → List LockEvent → Bool
  | _, [] => false
  | _, LockEvent.lock :: rest => writeHeldCheck true rest
  | _, LockEvent.unlock :: rest => writeHeldCheck false rest
  | held, LockEvent.write _ :: rest => held || writeHeldCheck held rest
  | held, LockEvent.removeClose _ :: rest => writeHeldCheck held rest

/-- Whether some per-connection write of the trace happens between a
lock acquisition and the matching release. -/
def existsWriteWhileLocked (tr : List LockEvent) : Bool := writeHeldCheck false tr

theorem lock_not_mem_broadcastEvents (fails : Nat → Bool) (s : List Nat) :
    LockEvent.lock ∉ broadcastEvents fails s := by
  induction s with
  | nil => simp [broadcastEvents]
  | cons c rest ih =>
      by_cases hc : fails c = true
      · simp [broadcastEvents, hc, ih]
      · simp at hc
        simp [broadcastEvents, hc, ih]

theorem unlock_not_mem_broadcastEvents (fails : Nat → Bool) (s : List Nat) :
    LockEvent.unlock ∉ broadcastEvents fails s := by
  induction s with
  | nil => simp [broadcastEvents]
  | cons c rest ih =>
      by_cases hc : fails c = true
      · simp [broadcastEvents, hc, ih]
      · simp at hc
        simp [broadcastEvents, hc, ih]

theorem write_mem_broadcastEvents (fails : Nat → Bool) (s : List Nat) (c : Nat)
    (h : c ∈ s) : LockEvent.write c ∈ broadcastEvents fails s := by
  induction s with
  | nil => simp at h
  | cons x rest ih =>
      rcases List.mem_cons.mp h with hx | hx
      · subst hx
        by_cases hc : fails c = true
        · simp [broadcastEvents, hc]
        · simp at hc
          simp [broadcastEvents, hc]
      · by_cases hc : fails x = true
        · simp [broadcastEvents, hc, ih hx]
        · simp at hc
          simp [broadcastEvents, hc, ih hx]

/-- C2 (amended): `BroadcastTaskUpdate` acquires the registry mutex once
on entry and releases it only on return (`defer`): the subscriber
lookup, the encoding, every per-connection write and every
failure-driven removal happen inside that single critical section — the
subscriber list is not snapshotted, the lock is not released before the
writes, and it is not re-acquired per removal. -/
theorem broadcast_lock_discipline (fails : Nat → Bool) (reg : Registry) (b : Nat) :
    broadcastTrace fails reg b
        = LockEvent.lock :: broadcastBody fails reg b ++ [LockEvent.unlock] ∧
    LockEvent.lock ∉ broadcastBody fails reg b ∧
    LockEvent.unlock ∉ broadcastBody fails reg b ∧
    (∀ s, getBoard reg b = some s →
        ∀ c ∈ s, LockEvent.write c ∈ broadcastBody fails reg b) := by
  refine ⟨rfl, ?_, ?_, ?_⟩
  · unfold broadcastBody
    cases getBoard reg b with
    | none => simp
    | some s => exact lock_not_mem_broadcastEvents fails s
  · unfold broadcastBody
    cases getBoard reg b with
    | none => simp
    | some s => exact unlock_not_mem_broadcastEvents fails s
  · intro s hs c hc
    unfold broadcastBody
    rw [hs]
    exact write_mem_broadcastEvents fails s c hc

/-- Witness for `broadcast_lock_discipline`: board 1 with subscriber 10
produces a write event inside the critical section. -/
theorem broadcast_lock_discipline_witness :
    LockEvent.write 10 ∈ broadcastBody (fun _ => false) [(1, [10])] 1 :=
  (broadcast_lock_discipline (fun _ => false) [(1, [10])] 1).2.2.2 [10]
    (by decide) 10 (by decide)

/-- C2 counterexample: on a board with one subscriber whose write
succeeds, the write attempt happens while the registry lock is held, so
`BroadcastTaskUpdate` does hold the lock across per-connection I/O,
contrary to the claimed snapshot-then-release discipline. -/
theorem broadcast_write_while_locked :
    existsWriteWhileLocked (broadcastTrace (fun _ => false) [(1, [10])] 1) = true := by
  decide

/-- A board as the WebSocket authorizer sees it: just the owner
identity exposed by `BoardRepo.GetByID`. -/
structure Board where
  ownerID : String

/-- An inbound upgrade request, abstracted to the outcomes of its
external checks: whether `checkOrigin` accepts it, whether the
transport-level upgrade itself succeeds, the result of
`uuid.Parse(board_id)`, the authenticated `user_id` from the request
context, and the result of the board lookup. -/
structure UpgradeRequest where
  originOk : Bool
  upgradeOk : Bool
  parsedBoardID : Option Nat
  userID : String
  boardLookup : Option Board

/-- What the handshake did: whether a live connection was created
(`upgrader.Upgrade` succeeded), whether that connection was closed
before returning, and the validated board id on success (`none` models
the error return). -/
structure UpgradeOutcome where
  upgraded : Bool
  connClosed : Bool
  result : Option Nat

/-- Embeds `func (h *Handler) upgradeAndAuthorize`: the protocol
upgrade runs first (validating only the origin); board-id parsing, the
board lookup and the ownership comparison run afterwards, and a failure
in any of them closes the already-upgraded connection and returns an
error. -/
def upgradeAndAuthorize (r : UpgradeRequest) : UpgradeOutcome :=
  if r.originOk && r.upgradeOk then
    match r.parsedBoardID with
    | none => ⟨true, true, none⟩
    | some bid =>
        match r.boardLookup with
        | none => ⟨true, true, none⟩
        | some board =>
            if board.ownerID = r.userID then ⟨true, false, some bid⟩
            else ⟨true, true, none⟩
  else ⟨false, false, none⟩

/-- Embeds the registry-relevant part of `HandleWebSocket`: the rate
limiter gate, then the handshake; only a fully successful handshake
registers the connection in the Hub. -/
def HandleWebSocket (allowed : Bool) (r : UpgradeRequest) (reg : Registry)
    (conn : Nat) : Registry × Option UpgradeOutcome :=
  if allowed then
    match (upgradeAndAuthorize r).result with
    | none => (reg, some (upgradeAndAuthorize r))
    | some bid => (register reg bid conn, some (upgradeAndAuthorize r))
  else (reg, none)

/-- C3 (amended): the protocol upgrade is performed exactly when origin
validation and the transport upgrade succeed — before board-id parsing,
board lookup and the ownership comparison; whenever the handshake fails
after the upgrade, the already-live connection is closed; a successful
result implies the board id parsed and the caller owns the board; and on
any failed handshake the Hub registry is left unchanged. -/
theorem upgrade_authorize_spec (r : UpgradeRequest) :
    (upgradeAndAuthorize r).upgraded = (r.originOk && r.upgradeOk) ∧
    ((upgradeAndAuthorize r).upgraded = true →
        (upgradeAndAuthorize r).result = none →
        (upgradeAndAuthorize r).connClosed = true) ∧
    (∀ bid, (upgradeAndAuthorize r).result = some bid →
        r.parsedBoardID = some bid ∧
          ∃ board, r.boardLookup = some board ∧ board.ownerID = r.userID) ∧
    (∀ (allowed : Bool) (reg : Registry) (conn : Nat),
        (upgradeAndAuthorize r).result = none →
          (HandleWebSocket allowed r reg conn).1 = reg) := by
  obtain ⟨o, u, pb, uid, bl⟩ := r
  refine ⟨?_, ?_, ?_, ?_⟩
  · cases o with
    | false => rfl
    | true =>
        cases u with
        | false => rfl
        | true =>
            cases pb with
            | none => rfl
            | some bid =>
                cases bl with
                | none => rfl
                | some board =>
                    by_cases hb : board.ownerID = uid
                    · simp [upgradeAndAuthorize, hb]
                    · simp [upgradeAndAuthorize, hb]
  · intro hup hres
    cases o with
    | false => simp [upgradeAndAuthorize] at hup
    | true =>
        cases u with
        | false => simp [upgradeAndAuthorize] at hup
        | true =>
            cases pb with
            | none => rfl
            | some bid =>
                cases bl with
                | none => rfl
                | some board =>
                    by_cases hb : board.ownerID = uid
                    · simp [upgradeAndAuthorize, hb] at hres
                    · simp [upgradeAndAuthorize, hb]
  · intro bid hres
    cases o with
    | false => simp [upgradeAndAuthorize] at hres
    | true =>
        cases u with
        | false => simp [upgradeAndAuthorize] at hres
        | true =>
            cases pb with
            | none => simp [upgradeAndAuthorize] at hres
            | some bid' =>
                cases bl with
                | none => simp [upgradeAndAuthorize] at hres
                | some board =>
                    by_cases hb : board.ownerID = uid
                    · simp [upgradeAndAuthorize, hb] at hres
                      subst hres
                      exact ⟨rfl, board, rfl, hb⟩
                    · simp [upgradeAndAuthorize, hb] at hres
  · intro allowed reg conn hres
    unfold HandleWebSocket
    cases allowed with
    | false => rfl
    | true =>
        simp only [if_pos]
        rw [hres]

/-- Witness for `upgrade_authorize_spec`: a malformed board id after a
successful upgrade yields a closed connection and an untouched registry,
while a fully successful request carries a parsed board id owned by the
caller. -/
theorem upgrade_authorize_spec_witness :
    (upgradeAndAuthorize ⟨true, true, none, "u1", none⟩).connClosed = true ∧
    (HandleWebSocket true ⟨true, true, none, "u1", none⟩ [(1, [10])] 99).1
        = [(1, [10])] ∧
    UpgradeRequest.parsedBoardID ⟨true, true, some 7, "u1", some ⟨"u1"⟩⟩ = some 7 :=
  ⟨(upgrade_authorize_spec ⟨true, true, none, "u1", none⟩).2.1 (by decide) (by decide),
    (upgrade_authorize_spec ⟨true, true, none, "u1", none⟩).2.2.2 true [(1, [10])] 99
      (by decide),
    ((upgrade_authorize_spec ⟨true, true, some 7, "u1", some ⟨"u1"⟩⟩).2.2.1 7
      (by decide)).1⟩

/-- C3 counterexample: a request whose origin check and transport
upgrade succeed but whose board id is malformed is still upgraded — the
live connection exists before the failure is detected (and is then
closed) — refuting the claim that the upgrade is performed only after
board-id parsing, board lookup and the ownership comparison succeed. -/
theorem upgrade_before_authorization :
    (upgradeAndAuthorize ⟨true, true, none, "u1", none⟩).upgraded = true ∧
    (upgradeAndAuthorize ⟨true, true, none, "u1", none⟩).result = none := by
  exact ⟨rfl, rfl⟩

/-- An operation on the Hub registry as the surrounding handlers invoke
it: registration of a connection after a successful handshake,
unregistration from a session teardown path, or a broadcast triggered by
a task mutation. -/
inductive HubOp where
  | reg (b c : Nat)
  | unreg (b c : Nat)
  | bcast (b : Nat) (t : TaskData) (fails : Nat → Bool)

/-- Apply one Hub operation to the registry. -/
def applyOp (s : Registry) : HubOp → Registry
  | HubOp.reg b c => register s b c
  | HubOp.unreg b c => unregister s b c
  | HubOp.bcast b t f => (BroadcastTaskUpdate f s b t).1

/-- Apply a sequence of Hub operations in order. -/
def runOps (s : Registry) : List HubOp → Registry
  | [] => s
  | op :: rest => runOps (applyOp s op) rest

/-- Whether connection `c` is in some board's subscriber set. -/
def connInRegistry (s : Registry) (c : Nat) : Bool :=
  s.any (fun e => decide (c ∈ e.2))

/-- Whether one operation respects freshness in state `s`: registering
only connections that are not currently subscribed anywhere. -/
def opFresh (s : Registry) : HubOp → Bool
  | HubOp.reg _ c => !connInRegistry s c
  | _ => true

/-- A trace is fresh when every `reg` registers a connection not
currently subscribed anywhere — exactly how `HandleWebSocket` uses the
Hub, since each registered connection is freshly produced by the
protocol upgrade and registered once. -/
def freshTrace : Registry → List HubOp → Bool
  | _, [] => true
  | s, op :: rest => opFresh s op && freshTrace (applyOp s op) rest

/-- Each connection belongs to at most one board's subscriber set. -/
def OneBoard (s : Registry) : Prop :=
  ∀ b1 b2 l1 l2 c, getBoard s b1 = some l1 → getBoard s b2 = some l2 →
    c ∈ l1 → c ∈ l2 → b1 = b2

theorem getBoard_mem (s : Registry) (b : Nat) (l : List Nat)
    (h : getBoard s b = some l) : (b, l) ∈ s := by
  induction s with
  | nil => simp [getBoard] at h
  | cons e rest ih =>
      obtain ⟨k, v⟩ := e
      by_cases hk : k = b
      · subst hk
        simp [getBoard] at h
        subst h
        exact List.mem_cons_self _ _
      · simp [getBoard, hk] at h
        exact List.mem_cons_of_mem _ (ih h)

theorem connInRegistry_false_not_mem (s : Registry) (c : Nat)
    (h : connInRegistry s c = false) :
    ∀ b l, getBoard s b = some l → c ∉ l := by
  intro b l hb hc
  have hmem := getBoard_mem s b l hb
  have := List.any_eq_false.mp h (b, l) hmem
  simp at this
  exact this hc

/-- If every set of `s2` is contained in the set `s1` stores for the
same board, the one-board property transfers from `s1` to `s2`. -/
theorem OneBoard_shrink (s1 s2 : Registry)
    (hsub : ∀ b l', getBoard s2 b = some l' →
        ∃ l, getBoard s1 b = some l ∧ ∀ x, x ∈ l' → x ∈ l)
    (h : OneBoard s1) : OneBoard s2 := by
  intro b1 b2 l1 l2 c h1 h2 hc1 hc2
  obtain ⟨m1, hm1, hsub1⟩ := hsub b1 l1 h1
  obtain ⟨m2, hm2, hsub2⟩ := hsub b2 l2 h2
  exact h b1 b2 m1 m2 c hm1 hm2 (hsub1 c hc1) (hsub2 c hc2)

theorem removeConn_subset (s : List Nat) (c x : Nat)
    (h : x ∈ removeConn s c) : x ∈ s := by
  induction s with
  | nil => simp [removeConn] at h
  | cons y rest ih =>
      by_cases hy : y = c
      · rw [removeConn, if_pos hy] at h
        exact List.mem_cons_of_mem _ (ih h)
      · rw [removeConn, if_neg hy] at h
        rcases List.mem_cons.mp h with hx | hx
        · exact hx ▸ List.mem_cons_self _ _
        · exact List.mem_cons_of_mem _ (ih hx)

theorem OneBoard_unregister (s : Registry) (b c : Nat) (h : OneBoard s) :
    OneBoard (unregister s b c) := by
  apply OneBoard_shrink s
  · intro k l' hk
    cases hl : getBoard s b with
    | none =>
        rw [unregister, hl] at hk
        exact ⟨l', hk, fun x hx => hx⟩
    | some s0 =>
        rw [unregister, hl] at hk
        by_cases hkb : k = b
        · subst hkb
          rw [getBoard_setBoard_self] at hk
          have hk' : removeConn s0 c = l' := Option.some.inj hk
          refine ⟨s0, hl, ?_⟩
          intro x hx
          rw [← hk'] at hx
          exact removeConn_subset s0 c x hx
        · rw [getBoard_setBoard_other s b k _ hkb] at hk
          exact ⟨l', hk, fun x hx => hx⟩
  · exact h

theorem OneBoard_broadcast (s : Registry) (b : Nat) (t : TaskData)
    (f : Nat → Bool) (h : OneBoard s) : OneBoard (BroadcastTaskUpdate f s b t).1 := by
  apply OneBoard_shrink s
  · intro k l' hk
    cases hl : getBoard s b with
    | none =>
        rw [broadcast_none_unfold f s b t hl] at hk
        exact ⟨l', hk, fun x hx => hx⟩
    | some s0 =>
        rw [broadcast_some_unfold f s b t s0 hl] at hk
        dsimp only at hk
        by_cases hkb : k = b
        · subst hkb
          rw [getBoard_setBoard_self] at hk
          have hk' : List.filter (fun c => !f c) s0 = l' := Option.some.inj hk
          refine ⟨s0, hl, ?_⟩
          intro x hx
          rw [← hk'] at hx
          exact List.mem_of_mem_filter hx
        · rw [getBoard_setBoard_other s b k _ hkb] at hk
          exact ⟨l', hk, fun x hx => hx⟩
  · exact h

theorem OneBoard_register (s : Registry) (b c : Nat) (h : OneBoard s)
    (hfresh : connInRegistry s c = false) : OneBoard (register s b c) := by
  have hnot := connInRegistry_false_not_mem s c hfresh
  intro b1 b2 l1 l2 c' h1 h2 hc1 hc2
  cases hl : getBoard s b with
  | none =>
      simp only [register, hl] at h1 h2
      by_cases hb1 : b1 = b
      · by_cases hb2 : b2 = b
        · rw [hb1, hb2]
        · rw [hb1, getBoard_setBoard_self] at h1
          rw [getBoard_setBoard_other s b b2 _ hb2] at h2
          have hc : c' = c := by
            have h1' : ([c] : List Nat) = l1 := Option.some.inj h1
            rw [← h1'] at hc1
            simpa using hc1
          rw [hc] at hc2
          exact absurd hc2 (hnot b2 l2 h2)
      · by_cases hb2 : b2 = b
        · rw [hb2, getBoard_setBoard_self] at h2
          rw [getBoard_setBoard_other s b b1 _ hb1] at h1
          have hc : c' = c := by
            have h2' : ([c] : List Nat) = l2 := Option.some.inj h2
            rw [← h2'] at hc2
            simpa using hc2
          rw [hc] at hc1
          exact absurd hc1 (hnot b1 l1 h1)
        · rw [getBoard_setBoard_other s b b1 _ hb1] at h1
          rw [getBoard_setBoard_other s b b2 _ hb2] at h2
          exact h b1 b2 l1 l2 c' h1 h2 hc1 hc2
  | some s0 =>
      have hcs0 : c ∉ s0 := hnot b s0 hl
      simp only [register, hl, if_neg hcs0] at h1 h2
      by_cases hb1 : b1 = b
      · by_cases hb2 : b2 = b
        · rw [hb1, hb2]
        · rw [hb1, getBoard_setBoard_self] at h1
          rw [getBoard_setBoard_other s b b2 _ hb2] at h2
          have h1' : s0 ++ [c] = l1 := Option.some.inj h1
          rw [← h1'] at hc1
          rcases List.mem_append.mp hc1 with hx | hx
          · rw [hb1]
            exact h b b2 s0 l2 c' hl h2 hx hc2
          · have hc : c' = c := by simpa using hx
            rw [hc] at hc2
            exact absurd hc2 (hnot b2 l2 h2)
      · by_cases hb2 : b2 = b
        · rw [hb2, getBoard_setBoard_self] at h2
          rw [getBoard_setBoard_other s b b1 _ hb1] at h1
          have h2' : s0 ++ [c] = l2 := Option.some.inj h2
          rw [← h2'] at hc2
          rcases List.mem_append.mp hc2 with hx | hx
          · rw [hb2]
            exact (h b b1 s0 l1 c' hl h1 hx hc1).symm
          · have hc : c' = c := by simpa using hx
            rw [hc] at hc1
            exact absurd hc1 (hnot b1 l1 h1)
        · rw [getBoard_setBoard_other s b b1 _ hb1] at h1
          rw [getBoard_setBoard_other s b b2 _ hb2] at h2
          exact h b1 b2 l1 l2 c' h1 h2 hc1 hc2

theorem OneBoard_runOps (ops : List HubOp) :
    ∀ s : Registry, OneBoard s → freshTrace s ops = true →
      OneBoard (runOps s ops) := by
  induction ops with
  | nil => intro s h _; exact h
  | cons op rest ih =>
      intro s h hfresh
      rw [freshTrace] at hfresh
      rw [Bool.and_eq_true] at hfresh
      obtain ⟨hhead, htail⟩ := hfresh
      rw [runOps]
      apply ih _ _ htail
      cases op with
      | reg b c =>
          simp only [opFresh, Bool.not_eq_true'] at hhead
          exact OneBoard_register s b c h hhead
      | unreg b c => exact OneBoard_unregister s b c h
      | bcast b t f => exact OneBoard_broadcast s b t f h

/-- C5: in every registry state reached from the empty registry by a
trace of register / unregister / broadcast operations in which each
registration adds a connection not currently subscribed anywhere (as
`HandleWebSocket` does with a freshly upgraded connection), every
connection lies in at most one board's subscriber set, and a broadcast
for board `bB` delivers to no connection that belongs to a different
board `bA`. -/
theorem one_board_invariant (ops : List HubOp)
    (h : freshTrace [] ops = true) :
    OneBoard (runOps [] ops) ∧
    (∀ (bA bB c : Nat) (sA : List Nat) (t : TaskData) (f : Nat → Bool),
        bA ≠ bB → getBoard (runOps [] ops) bA = some sA → c ∈ sA →
          ∀ p ∈ (BroadcastTaskUpdate f (runOps [] ops) bB t).2.delivered,
            p.1 ≠ c) := by
  have hempty : OneBoard ([] : Registry) := by
    intro b1 b2 l1 l2 c h1 h2 hc1 hc2
    simp [getBoard] at h1
  have hone : OneBoard (runOps [] ops) := OneBoard_runOps ops [] hempty h
  refine ⟨hone, ?_⟩
  intro bA bB c sA t f hne hA hcA p hp hpc
  cases hB : getBoard (runOps [] ops) bB with
  | none =>
      rw [broadcast_none_unfold f _ bB t hB] at hp
      simp at hp
  | some sB =>
      rw [broadcast_some_unfold f _ bB t sB hB] at hp
      dsimp only at hp
      obtain ⟨c', hc', hcp⟩ := List.mem_map.mp hp
      have hcB : c ∈ sB := by
        have : c' ∈ sB := List.mem_of_mem_filter hc'
        rw [← hcp] at hpc
        dsimp at hpc
        rw [hpc] at this
        exact this
      exact hne (hone bA bB sA sB c hA hB hcA hcB)

/-- Witness for `one_board_invariant`: after registering connection 10
under board 1 and connection 20 under board 2 (a fresh trace), a
broadcast for board 2 delivers nothing to connection 10. -/
theorem one_board_invariant_witness :
    freshTrace [] [HubOp.reg 1 10, HubOp.reg 2 20] = true ∧
      ∀ p ∈ (BroadcastTaskUpdate (fun _ => false)
          (runOps [] [HubOp.reg 1 10, HubOp.reg 2 20]) 2 ⟨"t", "x", "s"⟩).2.delivered,
        p.1 ≠ 10 :=
  ⟨by decide, fun p hp =>
    (one_board_invariant [HubOp.reg 1 10, HubOp.reg 2 20] (by decide)).2 1 2 10 [10]
      ⟨"t", "x", "s"⟩ (fun _ => false) (by decide) (by decide) (by decide) p hp⟩
